import Mathlib

/-!
# Grid, movement and collision rules of `game2.cpp`

A shallow embedding of the game logic of `src/game2.cpp`: the globals that
hold the player's state, the `keyboard` callback that moves the player, the
part of `draw` that touches those globals, the board loop of `draw`, and the
loop of `main` that stops the game.

Modelling conventions.

* The `float` globals `person_posx`, `person_posz`, `person_posy` are rationals.
  Every value the game computes for them is a multiple of `0.5` of small
  magnitude, on which binary32 addition, subtraction and comparison are exact.
* The `int` globals `block_pos` and `lives` are unbounded integers; `%` is the
  truncating remainder of C++, `Int.tmod`.
* Output to `cout` and all OpenGL calls are left out: they do not touch the
  globals modelled here.
-/

namespace Game2

/-! ## The globals (lines 210-213) -/

/-- The game globals of `game2.cpp`: `person_posx`, `person_posz`, `person_posy`,
`block_pos`, `lives` and `jump`. -/
structure Game where
  person_posx : ℚ
  person_posz : ℚ
  person_posy : ℚ
  block_pos : Int
  lives : Int
  jump : Bool
  deriving DecidableEq, Repr

/-- The initialisers of the globals:
`person_posx=-4.5, person_posz=-4.5, person_posy=1, block_pos=99, lives=3, jump=false`. -/
def initial : Game :=
  { person_posx := -4.5, person_posz := -4.5, person_posy := 1,
    block_pos := 99, lives := 3, jump := false }

/-! ## Key events -/

/-- The `key` argument of `keyboard`. `other` stands for every key that has no
`case` touching the game globals: `A`, `S`, `Z`, `O` (camera variables only) and
all keys without a `case`. -/
inductive Key where
  | right
  | left
  | up
  | down
  | space
  | other
  deriving DecidableEq, Repr

/-- The `action` argument of `keyboard`: `GLFW_PRESS`, `GLFW_REPEAT`, `GLFW_RELEASE`. -/
inductive Action where
  | press
  | repeat
  | release
  deriving DecidableEq, Repr

/-- A key event: the `key` and `action` arguments of one call of `keyboard`. -/
abbrev KeyEvent := Key × Action

/-! ## `keyboard` (lines 218-450) -/

/-- The `keyboard` callback, branch by branch as in the source. -/
def keyboard (g : Game) (key : Key) (action : Action) : Game :=
  if action = Action.repeat ∨ action = Action.press then
    match key with
    | Key.right =>
      if g.jump = true then
        let g1 :=
          if g.person_posz < 3.5 then
            let g2 := { g with person_posz := g.person_posz + 2, block_pos := g.block_pos - 2 }
            if g2.block_pos.tmod 8 = 5 then
              { g2 with block_pos := 99, person_posy := 0, lives := g2.lives - 1 }
            else if g2.block_pos.tmod 6 = 1 then
              { g2 with person_posz := g2.person_posz - 2, block_pos := g2.block_pos + 2 }
            else g2
          else g
        { g1 with jump := false }
      else if g.person_posz < 4.5 then
        let g2 := { g with person_posz := g.person_posz + 1, block_pos := g.block_pos - 1 }
        if g2.block_pos.tmod 8 = 5 then
          { g2 with block_pos := 99, person_posy := 0, lives := g2.lives - 1 }
        else if g2.block_pos.tmod 6 = 1 then
          { g2 with person_posz := g2.person_posz - 1, block_pos := g2.block_pos + 1 }
        else g2
      else g
    | Key.left =>
      if g.jump = true then
        let g1 :=
          if g.person_posz > -3.5 then
            let g2 := { g with person_posz := g.person_posz - 2, block_pos := g.block_pos + 2 }
            if g2.block_pos.tmod 8 = 5 then
              { g2 with block_pos := 99, person_posy := 0, lives := g2.lives - 1 }
            else if g2.block_pos.tmod 6 = 1 then
              { g2 with person_posz := g2.person_posz + 2, block_pos := g2.block_pos - 2 }
            else g2
          else g
        { g1 with jump := false }
      else if g.person_posz > -4.5 then
        let g2 := { g with person_posz := g.person_posz - 1, block_pos := g.block_pos + 1 }
        if g2.block_pos.tmod 8 = 5 then
          { g2 with block_pos := 99, person_posy := 0, lives := g2.lives - 1 }
        else if g2.block_pos.tmod 6 = 1 then
          { g2 with person_posz := g2.person_posz + 1, block_pos := g2.block_pos - 1 }
        else g2
      else g
    | Key.up =>
      if g.jump = true then
        let g1 :=
          if g.person_posx < 3.5 then
            let g2 := { g with person_posx := g.person_posx + 2, block_pos := g.block_pos - 20 }
            if g2.block_pos.tmod 8 = 5 then
              { g2 with block_pos := 99, person_posy := 0, lives := g2.lives - 1 }
            else if g2.block_pos.tmod 6 = 1 then
              { g2 with person_posx := g2.person_posx - 2, block_pos := g2.block_pos + 20 }
            else g2
          else g
        { g1 with jump := false }
      else if g.person_posx < 4.5 then
        let g2 := { g with person_posx := g.person_posx + 1, block_pos := g.block_pos - 10 }
        if g2.block_pos.tmod 8 = 5 then
          { g2 with block_pos := 99, person_posy := 0, lives := g2.lives - 1 }
        else if g2.block_pos.tmod 6 = 1 then
          { g2 with person_posx := g2.person_posx - 1, block_pos := g2.block_pos + 10 }
        else g2
      else g
    | Key.down =>
      if g.jump = true then
        let g1 :=
          if g.person_posx > -3.5 then
            let g2 := { g with person_posx := g.person_posx - 2, block_pos := g.block_pos + 20 }
            if g2.block_pos.tmod 8 = 5 then
              { g2 with block_pos := 99, person_posy := 0, lives := g2.lives - 1 }
            else if g2.block_pos.tmod 6 = 1 then
              { g2 with person_posx := g2.person_posx + 2, block_pos := g2.block_pos - 20 }
            else g2
          else g
        { g1 with jump := false }
      else if g.person_posx > -4.5 then
        let g2 := { g with person_posx := g.person_posx - 1, block_pos := g.block_pos + 10 }
        if g2.block_pos.tmod 8 = 5 then
          { g2 with block_pos := 99, person_posy := 0, lives := g2.lives - 1 }
        else if g2.block_pos.tmod 6 = 1 then
          { g2 with person_posx := g2.person_posx + 1, block_pos := g2.block_pos - 10 }
        else g2
      else g
    | Key.space => { g with jump := true }
    | Key.other => g
  else g

/-- The globals after `keyboard` has handled the events in order. -/
def run (g : Game) (events : List KeyEvent) : Game :=
  events.foldl (fun s e => keyboard s e.1 e.2) g

/-! ## `draw` (lines 771-825)

The board loop comes first, then the only statements of `draw` that write the
game globals. -/

/-- One execution of the body of the board loop: the running `index`, the world
position `(i, 0, j)` of the cell, and the subscripts with which `board` and
`obstacle` are read, when they are read. -/
structure Placement where
  index : Int
  i : ℚ
  j : ℚ
  board : Option Int
  obstacle : Option Int
  deriving DecidableEq, Repr

/-- The variables of the board loop that outlive one execution of its body,
`index` and `oindex`, with the record of the executions so far. -/
structure BoardLoop where
  index : Int
  oindex : Int
  placed : List Placement
  deriving DecidableEq, Repr

/-- The body of the inner `for`: the cell is drawn from `board[index]` unless
`index%8==5`, an obstacle is drawn from `obstacle[oindex++]` on top of it when
`index%6==1`, and `index++` ends the body. -/
def boardBody (i j : ℚ) (s : BoardLoop) : BoardLoop :=
  let s1 : BoardLoop :=
    if s.index.tmod 8 ≠ 5 then
      if s.index.tmod 6 = 1 then
        { s with
          oindex := s.oindex + 1
          placed := s.placed ++
            [{ index := s.index, i := i, j := j,
               board := some s.index, obstacle := some s.oindex }] }
      else
        { s with
          placed := s.placed ++
            [{ index := s.index, i := i, j := j, board := some s.index, obstacle := none }] }
    else
      { s with
        placed := s.placed ++
          [{ index := s.index, i := i, j := j, board := none, obstacle := none }] }
  { s1 with index := s1.index + 1 }

/-- The loop `for(float j=4.5;j>=-4.5;j--)`, entered with the current `j`. The
first argument bounds the number of tests of the loop condition; `none` means
the bound was too small. -/
def innerLoop : Nat → ℚ → ℚ → BoardLoop → Option BoardLoop
  | 0, _, _, _ => none
  | fuel + 1, i, j, s =>
    if j ≥ -4.5 then innerLoop fuel i (j - 1) (boardBody i j s) else some s

/-- The loop `for(float i=4.5;i>=-4.5;i--)`, entered with the current `i`; `n`
bounds each inner loop and the second argument bounds this one. -/
def outerLoop (n : Nat) : Nat → ℚ → BoardLoop → Option BoardLoop
  | 0, _, _ => none
  | fuel + 1, i, s =>
    if i ≥ -4.5 then
      match innerLoop n i 4.5 s with
      | some s1 => outerLoop n fuel (i - 1) s1
      | none => none
    else some s

/-- The board loop of `draw`, from `int index=0,oindex=0`. -/
def drawBoard (fuel : Nat) : Option BoardLoop :=
  outerLoop fuel fuel 4.5 { index := 0, oindex := 0, placed := [] }

/-- The end of `draw` (lines 820-825): when `person_posy==0` the player is put
back on the start corner at height 1. -/
def draw (g : Game) : Game :=
  if g.person_posy = 0 then
    { g with person_posy := 1, person_posz := -4.5, person_posx := -4.5 }
  else g

/-! ## The loop of `main` (lines 935-962) -/

/-- One pass of the body of the `while` loop before its two tests: `draw()`,
then `glfwPollEvents()` delivering the pending key events to `keyboard`. -/
def frame (g : Game) (events : List KeyEvent) : Game :=
  run (draw g) events

/-- The `while` loop of `main`. Each list element holds the key events of one
`glfwPollEvents()`; the list ends when the window is closed. The loop breaks
after a pass that ends with `lives==0` or with `block_pos==0`. -/
def mainLoop (g : Game) : List (List KeyEvent) → Game
  | [] => g
  | events :: rest =>
    let g1 := frame g events
    if g1.lives = 0 then g1
    else if g1.block_pos = 0 then g1
    else mainLoop g1 rest

/-- What the two tests of `main` report. -/
inductive Outcome where
  | inProgress
  | won
  | lost
  deriving DecidableEq, Repr

/-- The outcome `main` reads off the globals: `lives==0` is tested first
("LOST THE GAME"), then `block_pos==0` ("YOU WON THE GAME"). -/
def outcome (g : Game) : Outcome :=
  if g.lives = 0 then Outcome.lost
  else if g.block_pos = 0 then Outcome.won
  else Outcome.inProgress

/-! ## Reading an arrow command

The boundary test, the destination index and the displacement of an arrow
command, as the four `case`s of `keyboard` compute them. -/

/-- The four arrow keys. -/
def isArrow : Key → Bool
  | Key.right => true
  | Key.left => true
  | Key.up => true
  | Key.down => true
  | _ => false

/-- The number of cells an arrow command travels: 2 when `jump` is armed, else 1. -/
def stride (g : Game) : Int :=
  if g.jump = true then 2 else 1

/-- The change of `block_pos` for one cell of travel:
`RIGHT` -1, `LEFT` +1, `UP` -10, `DOWN` +10. -/
def unitOffset : Key → Int
  | Key.right => -1
  | Key.left => 1
  | Key.up => -10
  | Key.down => 10
  | _ => 0

/-- The change of `person_posx` for one cell of travel: `UP` +1, `DOWN` -1. -/
def axisX : Key → ℚ
  | Key.up => 1
  | Key.down => -1
  | _ => 0

/-- The change of `person_posz` for one cell of travel: `RIGHT` +1, `LEFT` -1. -/
def axisZ : Key → ℚ
  | Key.right => 1
  | Key.left => -1
  | _ => 0

/-- The boundary test guarding the move of an arrow command: the threshold is
3.5 (or -3.5) when `jump` is armed and 4.5 (or -4.5) otherwise. -/
def passesBoundary (g : Game) (key : Key) : Prop :=
  match key with
  | Key.right => if g.jump = true then g.person_posz < 3.5 else g.person_posz < 4.5
  | Key.left => if g.jump = true then g.person_posz > -3.5 else g.person_posz > -4.5
  | Key.up => if g.jump = true then g.person_posx < 3.5 else g.person_posx < 4.5
  | Key.down => if g.jump = true then g.person_posx > -3.5 else g.person_posx > -4.5
  | _ => False

instance (g : Game) (key : Key) : Decidable (passesBoundary g key) := by
  unfold passesBoundary
  cases key <;> infer_instance

/-- The value of `block_pos` on which the pit and obstacle tests are made. -/
def destination (g : Game) (key : Key) : Int :=
  g.block_pos + stride g * unitOffset key

/-- The pit test `block_pos%8==5`. -/
def isPit (d : Int) : Prop := d.tmod 8 = 5

/-- The obstacle test `block_pos%6==1`. -/
def isObstacle (d : Int) : Prop := d.tmod 6 = 1

instance (d : Int) : Decidable (isPit d) := by unfold isPit; infer_instance

instance (d : Int) : Decidable (isObstacle d) := by unfold isObstacle; infer_instance

/-- The globals right after the position and `block_pos` updates of an arrow
command, before the pit and obstacle tests. -/
def moved (g : Game) (key : Key) : Game :=
  { g with
    person_posx := g.person_posx + stride g * axisX key
    person_posz := g.person_posz + stride g * axisZ key
    block_pos := destination g key }

/-- Every event is an arrow key, pressed or repeated, that passes its boundary
test and whose destination is neither a pit nor an obstacle, each one read on
the globals the events before it have produced. -/
def allClean : Game → List KeyEvent → Prop
  | _, [] => True
  | g, e :: es =>
    isArrow e.1 = true ∧ (e.2 = Action.press ∨ e.2 = Action.repeat) ∧
    passesBoundary g e.1 ∧
    (destination g e.1).tmod 8 ≠ 5 ∧ (destination g e.1).tmod 6 ≠ 1 ∧
    allClean (keyboard g e.1 e.2) es

/-! ## Grid coordinates and the linear index -/

/-- The grid row of the player: `4.5 - person_posx`. -/
def row (g : Game) : ℚ := 4.5 - g.person_posx

/-- The grid column of the player: `4.5 - person_posz`. -/
def col (g : Game) : ℚ := 4.5 - g.person_posz

/-- The linear index of a grid coordinate: `row*10 + col`. -/
def indexOf (r c : ℚ) : ℚ := r * 10 + c

/-- `block_pos` agrees with the position, or a pit reset is pending. -/
def Consistent (g : Game) : Prop :=
  (g.person_posy = 1 ∧ (g.block_pos : ℚ) = indexOf (row g) (col g)) ∨ g.person_posy = 0

/-- The index and the grid coordinate `(4.5 - i, 4.5 - j)` of a placed cell. -/
def cellOf (p : Placement) : Int × (ℚ × ℚ) :=
  (p.index, (4.5 - p.i, 4.5 - p.j))

/-- The grid coordinate of the cell that the board loop places for the running
index `k`, if it places one. -/
def coordinateOf (k : Int) : Option (ℚ × ℚ) :=
  match drawBoard 11 with
  | some s => (s.placed.map cellOf).lookup k
  | none => none

/-- Index, row and column of the `n`-th cell in row-major order. -/
def gridCell (n : Nat) : Int × (ℚ × ℚ) :=
  ((n : Int), (((n / 10 : Nat) : ℚ), ((n % 10 : Nat) : ℚ)))

/-! ## Globals and key events used as examples -/

/-- The globals with the player on cell 94, one cell left of the pit 93. -/
def beforePit : Game :=
  { person_posx := -4.5, person_posz := 0.5, person_posy := 1,
    block_pos := 94, lives := 3, jump := false }

/-- The key events that bring the player from the start to cell 94. -/
def toBeforePit : List KeyEvent :=
  [(Key.right, Action.press), (Key.space, Action.press), (Key.right, Action.press),
   (Key.right, Action.press), (Key.right, Action.press)]

/-- The key events that bring the player from the start into the pit 93. -/
def intoPit : List KeyEvent :=
  toBeforePit ++ [(Key.right, Action.press)]

/-- The globals with the player on cell 98, one cell left of the obstacle 97. -/
def beforeObstacle : Game :=
  { person_posx := -4.5, person_posz := -3.5, person_posy := 1,
    block_pos := 98, lives := 3, jump := false }

/-- Six key events that enter a pit four times: `UP`, an armed `UP` into the pit
69, then three times `DOWN`, each reaching `block_pos` 109. -/
def fourFalls : List KeyEvent :=
  [(Key.up, Action.press), (Key.space, Action.press), (Key.up, Action.press),
   (Key.down, Action.press), (Key.down, Action.press), (Key.down, Action.press)]

/-- The eighteen single steps from the start to cell 0 that touch neither a pit
nor an obstacle. -/
def winPath : List KeyEvent :=
  [(Key.up, Action.press), (Key.right, Action.press), (Key.up, Action.press),
   (Key.up, Action.press), (Key.up, Action.press), (Key.up, Action.press),
   (Key.right, Action.press), (Key.right, Action.press), (Key.up, Action.press),
   (Key.right, Action.press), (Key.right, Action.press), (Key.up, Action.press),
   (Key.right, Action.press), (Key.right, Action.press), (Key.up, Action.press),
   (Key.right, Action.press), (Key.right, Action.press), (Key.up, Action.press)]

/-- The globals with the player on cell 0 and all three lives. -/
def atGoal : Game :=
  { person_posx := 4.5, person_posz := 4.5, person_posy := 1,
    block_pos := 0, lives := 3, jump := false }

/-- The globals with the player on cell 10, just below the goal. -/
def belowGoal : Game :=
  { person_posx := 3.5, person_posz := 4.5, person_posy := 1,
    block_pos := 10, lives := 3, jump := false }

/-- The globals with the player on cell 86, one cell left of cell 85. -/
def beforeBoth : Game :=
  { person_posx := -3.5, person_posz := -1.5, person_posy := 1,
    block_pos := 86, lives := 3, jump := false }

/-- The key events that bring the player from the start to cell 86. -/
def toBeforeBoth : List KeyEvent :=
  [(Key.up, Action.press), (Key.right, Action.press), (Key.right, Action.press),
   (Key.right, Action.press)]

/-- The globals with the player on cell 98, one cell left of the obstacle 97, and
`jump` armed. -/
def armedBeforeObstacle : Game :=
  { beforeObstacle with jump := true }

/-! ## One command per frame -/

/-- The globals after each event has been handled by `keyboard` and followed by
one `draw`. -/
def play (g : Game) (events : List KeyEvent) : Game :=
  events.foldl (fun s e => draw (keyboard s e.1 e.2)) g

/-- The player stands upright on the cell of row `r` and column `c` of the board
and `block_pos` is the index of that cell. -/
def OnGrid (g : Game) : Prop :=
  ∃ r c : Int, 0 ≤ r ∧ r ≤ 9 ∧ 0 ≤ c ∧ c ≤ 9 ∧
    g.person_posx = 4.5 - r ∧ g.person_posz = 4.5 - c ∧
    g.person_posy = 1 ∧ g.block_pos = 10 * r + c

/-- The ten values `-4.5, -3.5, ..., 4.5`. -/
def gridValues : List ℚ :=
  [-4.5, -3.5, -2.5, -1.5, -0.5, 0.5, 1.5, 2.5, 3.5, 4.5]

/-! ## The board loop, unrolled -/

/-- The body of the board loop run for the ten columns of the row at `i`, with
`j` going from 4.5 down to -4.5. -/
def boardRow (i : ℚ) (s : BoardLoop) : BoardLoop :=
  (List.range' 0 10).foldl (fun t (c : Nat) => boardBody i (4.5 - (c : ℚ)) t) s

/-- The body of the board loop run for the ten rows, with `i` going from 4.5 down
to -4.5, from `int index=0,oindex=0`. -/
def boardRows : BoardLoop :=
  (List.range' 0 10).foldl (fun t (r : Nat) => boardRow (4.5 - (r : ℚ)) t)
    { index := 0, oindex := 0, placed := [] }

/-! ## Basic facts about `keyboard` -/

/-- An arrow command, read as a whole: a rejected move only clears `jump`; a
pit resets `block_pos` to 99, lowers the player and takes a life; an obstacle
undoes the move; otherwise the move stands. -/
theorem keyboard_arrow (g : Game) (key : Key) (action : Action)
    (hk : isArrow key = true) (ha : action = Action.press ∨ action = Action.repeat) :
    keyboard g key action =
      if passesBoundary g key then
        if isPit (destination g key) then
          { moved g key with block_pos := 99, person_posy := 0, lives := g.lives - 1,
                             jump := false }
        else if isObstacle (destination g key) then { g with jump := false }
        else { moved g key with jump := false }
      else { g with jump := false } := by
  obtain ⟨px, pz, py, bp, lv, jp⟩ := g
  rcases ha with rfl | rfl <;> cases key <;> cases jp <;>
    simp [isArrow] at hk <;>
    simp [keyboard, passesBoundary, destination, stride, unitOffset, axisX, axisZ, moved,
      isPit, isObstacle, sub_eq_add_neg] <;>
    split_ifs <;> simp

/-! ## Entering a pit -/

/-- C1, as stated, fails: on cell 94 (reached from the start) `RIGHT` passes the
boundary test and its destination 93 is a pit, yet `keyboard` leaves the player
at `(-4.5, 1.5)`, not on the start corner `(-4.5, -4.5)`. -/
theorem keyboard_pit_position_counterexample :
    run initial toBeforePit = beforePit ∧
    passesBoundary beforePit Key.right ∧
    (destination beforePit Key.right).tmod 8 = 5 ∧
    keyboard beforePit Key.right Action.press =
      { person_posx := -4.5, person_posz := 1.5, person_posy := 0,
        block_pos := 99, lives := 2, jump := false } ∧
    (keyboard beforePit Key.right Action.press).person_posz ≠ -4.5 := by
  refine ⟨?_, ?_, ?_, ?_, ?_⟩
  · norm_num +decide [run, toBeforePit, initial, beforePit, keyboard]
  · norm_num [passesBoundary, beforePit]
  · decide
  · norm_num +decide [beforePit, keyboard]
  · norm_num +decide [beforePit, keyboard]

/-- C1, amended: an arrow command that passes its boundary test and whose
destination is a pit makes `keyboard` take exactly one life, set `block_pos` to
99 and `person_posy` to 0, with the player still on the destination cell; the
next `draw` then puts the player on the start corner `(-4.5, -4.5)`. -/
theorem keyboard_pit_then_draw (g : Game) (key : Key) (action : Action)
    (hk : isArrow key = true) (ha : action = Action.press ∨ action = Action.repeat)
    (hb : passesBoundary g key) (hp : (destination g key).tmod 8 = 5) :
    (keyboard g key action).lives = g.lives - 1 ∧
    (keyboard g key action).block_pos = 99 ∧
    (keyboard g key action).person_posy = 0 ∧
    (keyboard g key action).person_posx = g.person_posx + stride g * axisX key ∧
    (keyboard g key action).person_posz = g.person_posz + stride g * axisZ key ∧
    draw (keyboard g key action) =
      { person_posx := -4.5, person_posz := -4.5, person_posy := 1,
        block_pos := 99, lives := g.lives - 1, jump := false } := by
  have hp' : isPit (destination g key) := hp
  rw [keyboard_arrow g key action hk ha, if_pos hb, if_pos hp']
  simp [moved, draw]

/-- The amended C1 at cell 94 with `RIGHT`. -/
theorem keyboard_pit_then_draw_witness :
    passesBoundary beforePit Key.right ∧
    (destination beforePit Key.right).tmod 8 = 5 ∧
    ((keyboard beforePit Key.right Action.press).lives = beforePit.lives - 1 ∧
    (keyboard beforePit Key.right Action.press).block_pos = 99 ∧
    (keyboard beforePit Key.right Action.press).person_posy = 0 ∧
    (keyboard beforePit Key.right Action.press).person_posx =
      beforePit.person_posx + stride beforePit * axisX Key.right ∧
    (keyboard beforePit Key.right Action.press).person_posz =
      beforePit.person_posz + stride beforePit * axisZ Key.right ∧
    draw (keyboard beforePit Key.right Action.press) =
      { person_posx := -4.5, person_posz := -4.5, person_posy := 1,
        block_pos := 99, lives := beforePit.lives - 1, jump := false }) :=
  ⟨by norm_num [passesBoundary, beforePit], by decide,
   keyboard_pit_then_draw beforePit Key.right Action.press rfl (Or.inl rfl)
     (by norm_num [passesBoundary, beforePit]) (by decide)⟩

/-! ## Running into an obstacle -/

/-- C2: an arrow command that passes its boundary test and whose destination is
an obstacle and not a pit leaves `person_posx`, `person_posz`, `person_posy`,
`block_pos` and `lives` as they were, and `jump` is false afterwards. -/
theorem keyboard_obstacle_reverts (g : Game) (key : Key) (action : Action)
    (hk : isArrow key = true) (ha : action = Action.press ∨ action = Action.repeat)
    (hb : passesBoundary g key) (hp : (destination g key).tmod 8 ≠ 5)
    (ho : (destination g key).tmod 6 = 1) :
    (keyboard g key action).person_posx = g.person_posx ∧
    (keyboard g key action).person_posz = g.person_posz ∧
    (keyboard g key action).person_posy = g.person_posy ∧
    (keyboard g key action).block_pos = g.block_pos ∧
    (keyboard g key action).lives = g.lives ∧
    (keyboard g key action).jump = false := by
  have hp' : ¬ isPit (destination g key) := hp
  have ho' : isObstacle (destination g key) := ho
  rw [keyboard_arrow g key action hk ha, if_pos hb, if_neg hp', if_pos ho']
  simp

/-- C2 at cell 98 with `RIGHT`: the destination 97 is an obstacle. -/
theorem keyboard_obstacle_reverts_witness :
    passesBoundary beforeObstacle Key.right ∧
    (destination beforeObstacle Key.right).tmod 8 ≠ 5 ∧
    (destination beforeObstacle Key.right).tmod 6 = 1 ∧
    ((keyboard beforeObstacle Key.right Action.repeat).person_posx
        = beforeObstacle.person_posx ∧
    (keyboard beforeObstacle Key.right Action.repeat).person_posz
        = beforeObstacle.person_posz ∧
    (keyboard beforeObstacle Key.right Action.repeat).person_posy
        = beforeObstacle.person_posy ∧
    (keyboard beforeObstacle Key.right Action.repeat).block_pos = beforeObstacle.block_pos ∧
    (keyboard beforeObstacle Key.right Action.repeat).lives = beforeObstacle.lives ∧
    (keyboard beforeObstacle Key.right Action.repeat).jump = false) :=
  ⟨by norm_num [passesBoundary, beforeObstacle], by decide, by decide,
   keyboard_obstacle_reverts beforeObstacle Key.right Action.repeat rfl (Or.inr rfl)
     (by norm_num [passesBoundary, beforeObstacle]) (by decide) (by decide)⟩

/-! ## A move that stands -/

/-- C3: an arrow command that passes its boundary test and whose destination is
neither a pit nor an obstacle moves the player `s` cells along the axis of the
key and changes `block_pos` by `s` times the unit offset of the key, where `s`
is 2 when `jump` was armed and 1 otherwise; `lives` is unchanged and `jump` is
false afterwards. From the initial globals one `UP` gives `block_pos` 89 and
`lives` 3. -/
theorem keyboard_safe_move :
    (∀ (g : Game) (key : Key) (action : Action),
      isArrow key = true → (action = Action.press ∨ action = Action.repeat) →
      passesBoundary g key →
      (destination g key).tmod 8 ≠ 5 → (destination g key).tmod 6 ≠ 1 →
      (keyboard g key action).person_posx = g.person_posx + stride g * axisX key ∧
      (keyboard g key action).person_posz = g.person_posz + stride g * axisZ key ∧
      (keyboard g key action).person_posy = g.person_posy ∧
      (keyboard g key action).block_pos = g.block_pos + stride g * unitOffset key ∧
      (keyboard g key action).lives = g.lives ∧
      (keyboard g key action).jump = false) ∧
    (stride initial = 1 ∧
      (keyboard initial Key.up Action.press).block_pos = 89 ∧
      (keyboard initial Key.up Action.press).lives = 3) := by
  constructor
  · intro g key action hk ha hb hp ho
    have hp' : ¬ isPit (destination g key) := hp
    have ho' : ¬ isObstacle (destination g key) := ho
    rw [keyboard_arrow g key action hk ha, if_pos hb, if_neg hp', if_neg ho']
    simp [moved, destination]
  · norm_num +decide [stride, initial, keyboard]

/-- C3 on cell 94 with `jump` armed and `LEFT`: the player travels two cells, from
`person_posz` 0.5 to -1.5 and from `block_pos` 94 to 96. -/
theorem keyboard_safe_move_witness :
    (keyboard { beforePit with jump := true } Key.left Action.press).person_posx
        = (-4.5 : ℚ) + (2 : Int) * axisX Key.left ∧
    (keyboard { beforePit with jump := true } Key.left Action.press).person_posz
        = (0.5 : ℚ) + (2 : Int) * axisZ Key.left ∧
    (keyboard { beforePit with jump := true } Key.left Action.press).person_posy = 1 ∧
    (keyboard { beforePit with jump := true } Key.left Action.press).block_pos
        = 94 + 2 * unitOffset Key.left ∧
    (keyboard { beforePit with jump := true } Key.left Action.press).lives = 3 ∧
    (keyboard { beforePit with jump := true } Key.left Action.press).jump = false :=
  keyboard_safe_move.1 { beforePit with jump := true } Key.left Action.press rfl (Or.inl rfl)
    (by norm_num [passesBoundary, beforePit]) (by decide) (by decide)

/-! ## A move rejected at the boundary -/

/-- C4: an arrow command that fails its boundary test leaves the player's
position, `block_pos` and `lives` unchanged, hence also the outcome `main`
reads, and `jump` is false afterwards. -/
theorem keyboard_boundary_rejected (g : Game) (key : Key) (action : Action)
    (hk : isArrow key = true) (ha : action = Action.press ∨ action = Action.repeat)
    (hb : ¬ passesBoundary g key) :
    (keyboard g key action).person_posx = g.person_posx ∧
    (keyboard g key action).person_posz = g.person_posz ∧
    (keyboard g key action).person_posy = g.person_posy ∧
    (keyboard g key action).block_pos = g.block_pos ∧
    (keyboard g key action).lives = g.lives ∧
    outcome (keyboard g key action) = outcome g ∧
    (keyboard g key action).jump = false := by
  rw [keyboard_arrow g key action hk ha, if_neg hb]
  simp [outcome]

/-- C4 at the initial globals with `jump` armed and `DOWN`: `person_posx` is -4.5,
not above -3.5, and the armed jump is spent. -/
theorem keyboard_boundary_rejected_witness :
    ¬ passesBoundary { initial with jump := true } Key.down ∧
    ((keyboard { initial with jump := true } Key.down Action.press).person_posx
        = ({ initial with jump := true } : Game).person_posx ∧
    (keyboard { initial with jump := true } Key.down Action.press).person_posz
        = ({ initial with jump := true } : Game).person_posz ∧
    (keyboard { initial with jump := true } Key.down Action.press).person_posy
        = ({ initial with jump := true } : Game).person_posy ∧
    (keyboard { initial with jump := true } Key.down Action.press).block_pos
        = ({ initial with jump := true } : Game).block_pos ∧
    (keyboard { initial with jump := true } Key.down Action.press).lives
        = ({ initial with jump := true } : Game).lives ∧
    outcome (keyboard { initial with jump := true } Key.down Action.press)
        = outcome { initial with jump := true } ∧
    (keyboard { initial with jump := true } Key.down Action.press).jump = false) :=
  ⟨by norm_num [passesBoundary, initial],
   keyboard_boundary_rejected { initial with jump := true } Key.down Action.press rfl
     (Or.inl rfl) (by norm_num [passesBoundary, initial])⟩

/-! ## The index and the position -/

theorem consistent_keyboard (g : Game) (key : Key) (action : Action)
    (h : Consistent g) : Consistent (keyboard g key action) := by
  by_cases ha : action = Action.press ∨ action = Action.repeat
  · by_cases hk : isArrow key = true
    · rw [keyboard_arrow g key action hk ha]
      split_ifs with hb hp ho
      · exact Or.inr rfl
      · exact h
      · rcases h with ⟨hy, hi⟩ | hy
        · left
          refine ⟨hy, ?_⟩
          obtain ⟨px, pz, py, bp, lv, jp⟩ := g
          cases key <;> cases jp <;> simp [isArrow] at hk <;>
            simp [moved, destination, stride, unitOffset, axisX, axisZ, row, col,
              indexOf] at hi ⊢ <;>
            rw [hi] <;> ring
        · exact Or.inr hy
      · exact h
    · cases key <;> simp [isArrow] at hk <;>
        rcases ha with rfl | rfl <;> simpa [keyboard, Consistent, row, col] using h
  · have hg : keyboard g key action = g := by
      cases action <;> simp at ha
      simp [keyboard]
    rw [hg]
    exact h

theorem consistent_run (events : List KeyEvent) :
    ∀ g : Game, Consistent g → Consistent (run g events) := by
  induction events with
  | nil => intro g h; exact h
  | cons e es ih =>
    intro g h
    exact ih (keyboard g e.1 e.2) (consistent_keyboard g e.1 e.2 h)

/-- C5, as stated, fails: the six key events of `intoPit` end in the pit 93, where
`keyboard` sets `block_pos` to 99 while the player stands at row 9, column 3,
whose index is 93. -/
theorem run_index_counterexample :
    run initial intoPit =
      { person_posx := -4.5, person_posz := 1.5, person_posy := 0,
        block_pos := 99, lives := 2, jump := false } ∧
    row (run initial intoPit) = 9 ∧ col (run initial intoPit) = 3 ∧
    ((run initial intoPit).block_pos : ℚ)
      ≠ indexOf (row (run initial intoPit)) (col (run initial intoPit)) := by
  have h : run initial intoPit =
      { person_posx := -4.5, person_posz := 1.5, person_posy := 0,
        block_pos := 99, lives := 2, jump := false } := by
    norm_num +decide [run, intoPit, toBeforePit, initial, keyboard]
  rw [h]
  norm_num [row, col, indexOf]

/-- C5, amended: after any finite sequence of key events from the initial globals,
either `person_posy` is 1 and `block_pos == row*10 + col` with
`row = 4.5 - person_posx` and `col = 4.5 - person_posz`, or `person_posy` is 0:
a pit was entered and the position waits for the reset of the next `draw`. -/
theorem run_index_consistent (events : List KeyEvent) :
    ((run initial events).person_posy = 1 ∧
      ((run initial events).block_pos : ℚ)
        = indexOf (row (run initial events)) (col (run initial events))) ∨
    (run initial events).person_posy = 0 := by
  have h0 : Consistent initial := by
    left
    norm_num [initial, row, col, indexOf]
  exact consistent_run events initial h0

/-! ## Lives -/

theorem keyboard_lives (g : Game) (key : Key) (action : Action) :
    g.lives - 1 ≤ (keyboard g key action).lives := by
  by_cases ha : action = Action.press ∨ action = Action.repeat
  · by_cases hk : isArrow key = true
    · rw [keyboard_arrow g key action hk ha]
      split_ifs <;> simp [moved]
    · cases key <;> simp [isArrow] at hk <;>
        rcases ha with rfl | rfl <;> simp [keyboard]
  · have hg : keyboard g key action = g := by
      cases action <;> simp at ha
      simp [keyboard]
    rw [hg]
    omega

theorem draw_lives (g : Game) : (draw g).lives = g.lives := by
  unfold draw
  split_ifs <;> rfl

theorem frame_lives (g : Game) (events : List KeyEvent) (h : events.length ≤ 1) :
    g.lives - 1 ≤ (frame g events).lives := by
  match events, h with
  | [], _ => simp [frame, run, draw_lives]
  | [e], _ =>
    have := keyboard_lives (draw g) e.1 e.2
    rw [draw_lives] at this
    simpa [frame, run] using this

theorem mainLoop_lives (frames : List (List KeyEvent)) :
    ∀ g : Game, 1 ≤ g.lives → (∀ events ∈ frames, events.length ≤ 1) →
      0 ≤ (mainLoop g frames).lives := by
  induction frames with
  | nil => intro g hg _; simp only [mainLoop]; omega
  | cons events rest ih =>
    intro g hg hlen
    have h1 := frame_lives g events (hlen events (List.mem_cons_self _ _))
    simp only [mainLoop]
    split_ifs with hz hb
    · omega
    · omega
    · exact ih (frame g events) (by omega)
        (fun evs hevs => hlen evs (List.mem_cons_of_mem _ hevs))

/-- C6, as stated, fails: the six key events of `fourFalls` enter a pit four
times and `keyboard` takes a life each time, so `lives` ends at -1; the same
happens in the loop of `main` when the six events arrive in one poll. -/
theorem run_lives_counterexample :
    run initial fourFalls =
      { person_posx := -4.5, person_posz := -4.5, person_posy := 0,
        block_pos := 99, lives := -1, jump := false } ∧
    ¬ (0 ≤ (run initial fourFalls).lives) ∧
    (mainLoop initial [fourFalls]).lives = -1 := by
  have h : run initial fourFalls =
      { person_posx := -4.5, person_posz := -4.5, person_posy := 0,
        block_pos := 99, lives := -1, jump := false } := by
    norm_num +decide [run, fourFalls, initial, keyboard]
  have hd : draw initial = initial := by
    norm_num [draw, initial]
  refine ⟨h, ?_, ?_⟩
  · rw [h]
    simp
  · simp only [mainLoop, frame, hd, h]
    simp

/-- C6, amended: in the loop of `main`, started on the initial globals with at most
one key event per `glfwPollEvents()`, `lives >= 0` holds when the loop ends,
because the loop breaks as soon as `lives == 0`. `keyboard` itself has no floor:
a pit entry taken when `lives` is 0 leaves it at -1. -/
theorem mainLoop_lives_nonneg :
    (∀ frames : List (List KeyEvent), (∀ events ∈ frames, events.length ≤ 1) →
      0 ≤ (mainLoop initial frames).lives) ∧
    (∀ (g : Game) (key : Key) (action : Action),
      isArrow key = true → (action = Action.press ∨ action = Action.repeat) →
      passesBoundary g key → (destination g key).tmod 8 = 5 → g.lives = 0 →
      (keyboard g key action).lives = -1) := by
  constructor
  · intro frames h
    exact mainLoop_lives frames initial (by simp [initial]) h
  · intro g key action hk ha hb hp hl
    have hp' : isPit (destination g key) := hp
    rw [keyboard_arrow g key action hk ha, if_pos hb, if_pos hp']
    simp [hl]

/-- The amended C6 on three passes, `UP`, `SPACE`, `UP` (the last one into a pit),
and on cell 94 with no life left and `RIGHT`. -/
theorem mainLoop_lives_nonneg_witness :
    ((∀ events ∈ [[(Key.up, Action.press)], [(Key.space, Action.press)],
        [(Key.up, Action.press)]], events.length ≤ 1) ∧
      0 ≤ (mainLoop initial [[(Key.up, Action.press)], [(Key.space, Action.press)],
        [(Key.up, Action.press)]]).lives) ∧
    (passesBoundary { beforePit with lives := 0 } Key.right ∧
      (destination { beforePit with lives := 0 } Key.right).tmod 8 = 5 ∧
      (keyboard { beforePit with lives := 0 } Key.right Action.press).lives = -1) :=
  ⟨⟨by simp, mainLoop_lives_nonneg.1 _ (by simp)⟩,
   by norm_num [passesBoundary, beforePit], by decide,
   mainLoop_lives_nonneg.2 { beforePit with lives := 0 } Key.right Action.press rfl
     (Or.inl rfl) (by norm_num [passesBoundary, beforePit]) (by decide) rfl⟩

/-! ## The end of the game -/

theorem run_winPath : run initial winPath = atGoal := by
  norm_num +decide [run, winPath, initial, atGoal, keyboard]

/-- C7, as stated, fails: on cell 0 (a won game, reached by `winPath`) `keyboard`
still handles `DOWN` and moves the player to cell 10; with `lives` 0 on the
start corner it still handles `UP` and moves the player to cell 89. -/
theorem keyboard_terminal_counterexample :
    run initial winPath = atGoal ∧ outcome atGoal = Outcome.won ∧
    keyboard atGoal Key.down Action.press =
      { person_posx := 3.5, person_posz := 4.5, person_posy := 1,
        block_pos := 10, lives := 3, jump := false } ∧
    outcome { initial with lives := 0 } = Outcome.lost ∧
    keyboard { initial with lives := 0 } Key.up Action.press =
      { person_posx := -3.5, person_posz := -4.5, person_posy := 1,
        block_pos := 89, lives := 0, jump := false } := by
  refine ⟨run_winPath, ?_, ?_, ?_, ?_⟩
  · simp [outcome, atGoal]
  · norm_num +decide [atGoal, keyboard]
  · simp [outcome]
  · norm_num +decide [initial, keyboard]

/-- C7, amended: `keyboard` does not test the outcome; the loop of `main` does, at
the end of each pass. When a pass ends with `lives == 0` or `block_pos == 0` the
loop breaks there, so the key events of all later passes change nothing: the
globals stay as that pass left them. -/
theorem mainLoop_stops_at_terminal (g : Game) (events : List KeyEvent)
    (rest : List (List KeyEvent))
    (h : (frame g events).lives = 0 ∨ (frame g events).block_pos = 0) :
    mainLoop g (events :: rest) = frame g events := by
  simp only [mainLoop]
  split_ifs with hz hb
  · rfl
  · rfl
  · exact absurd h (by simp [hz, hb])

/-- The amended C7 from cell 10: `UP` reaches cell 0, and the `DOWN` of the next
pass is never handled. -/
theorem mainLoop_stops_at_terminal_witness :
    ((frame belowGoal [(Key.up, Action.press)]).lives = 0 ∨
      (frame belowGoal [(Key.up, Action.press)]).block_pos = 0) ∧
    mainLoop belowGoal [[(Key.up, Action.press)], [(Key.down, Action.press)]]
      = frame belowGoal [(Key.up, Action.press)] :=
  ⟨Or.inr (by norm_num +decide [frame, run, draw, belowGoal, keyboard]),
   mainLoop_stops_at_terminal belowGoal [(Key.up, Action.press)]
     [[(Key.down, Action.press)]]
     (Or.inr (by norm_num +decide [frame, run, draw, belowGoal, keyboard]))⟩

/-! ## Winning -/

/-- C8: there is a finite sequence of arrow-key events from the initial globals,
every one passing its boundary test and landing on a cell that is neither pit
nor obstacle, after which `block_pos == 0` and `lives == 3`; the tests of `main`
then report the win, also when the events arrive one per pass of its loop. -/
theorem win_reachable :
    ∃ events : List KeyEvent,
      allClean initial events ∧
      (run initial events).block_pos = 0 ∧ (run initial events).lives = 3 ∧
      outcome (run initial events) = Outcome.won ∧
      outcome (mainLoop initial (events.map fun e => [e])) = Outcome.won := by
  refine ⟨winPath, ?_, ?_, ?_, ?_, ?_⟩
  · norm_num +decide [allClean, winPath, initial, keyboard, passesBoundary, destination,
      stride, unitOffset, isArrow]
  · rw [run_winPath]; rfl
  · rw [run_winPath]; rfl
  · rw [run_winPath]; simp [outcome, atGoal]
  · norm_num +decide [mainLoop, frame, run, draw, winPath, initial, keyboard, outcome]

/-! ## Cells that are pit and obstacle at once -/

theorem tmod_nonpos_of_neg (a n : Int) (ha : a < 0) : a.tmod n ≤ 0 := by
  have h := Int.tmod_nonneg n (show 0 ≤ -a by omega)
  rw [Int.tmod_def, Int.neg_tdiv, Int.mul_neg] at h
  rw [Int.tmod_def]
  omega

theorem tmod_eq_pos_iff (a n r : Int) (hn : 0 < n) (hr : 0 < r) :
    a.tmod n = r ↔ 0 ≤ a ∧ a % n = r := by
  rcases lt_or_le a 0 with ha | ha
  · have := tmod_nonpos_of_neg a n ha
    constructor
    · intro h; omega
    · intro h; omega
  · rw [Int.tmod_eq_emod ha (le_of_lt hn)]
    exact ⟨fun h => ⟨ha, h⟩, fun h => h.2⟩

/-- C9, as stated, fails: on cell 86 (reached from the start by four clean steps)
`RIGHT` passes the boundary test and its destination 85 satisfies the pit test
and the obstacle test together. -/
theorem destination_both_counterexample :
    allClean initial toBeforeBoth ∧ run initial toBeforeBoth = beforeBoth ∧
    passesBoundary beforeBoth Key.right ∧ destination beforeBoth Key.right = 85 ∧
    (destination beforeBoth Key.right).tmod 8 = 5 ∧
    (destination beforeBoth Key.right).tmod 6 = 1 := by
  refine ⟨?_, ?_, ?_, ?_, ?_, ?_⟩
  · norm_num +decide [allClean, toBeforeBoth, initial, keyboard, passesBoundary,
      destination, stride, unitOffset, isArrow]
  · norm_num +decide [run, toBeforeBoth, initial, beforeBoth, keyboard]
  · norm_num [passesBoundary, beforeBoth]
  · decide
  · decide
  · decide

/-- C9, amended: the destination index `d` of an arrow command satisfies the pit
test `d % 8 == 5` and the obstacle test `d % 6 == 1` together exactly when
`d % 24 == 13`; among the board indices 0..99 these are 13, 37, 61 and 85. -/
theorem destination_both_iff :
    (∀ (g : Game) (key : Key),
      ((destination g key).tmod 8 = 5 ∧ (destination g key).tmod 6 = 1)
        ↔ (destination g key).tmod 24 = 13) ∧
    (List.range 100).filter
        (fun k : Nat => decide ((k : Int).tmod 8 = 5 ∧ (k : Int).tmod 6 = 1))
      = [13, 37, 61, 85] := by
  constructor
  · intro g key
    rw [tmod_eq_pos_iff _ 8 5 (by decide) (by decide),
      tmod_eq_pos_iff _ 6 1 (by decide) (by decide),
      tmod_eq_pos_iff _ 24 13 (by decide) (by decide)]
    omega
  · decide

/-! ## The board loop places the cells in row-major order -/

theorem boardBody_index (i j : ℚ) (s : BoardLoop) :
    (boardBody i j s).index = s.index + 1 := by
  unfold boardBody
  split_ifs <;> rfl

theorem boardBody_cells (i j : ℚ) (s : BoardLoop) :
    (boardBody i j s).placed.map cellOf
      = s.placed.map cellOf ++ [(s.index, (4.5 - i, 4.5 - j))] := by
  unfold boardBody
  split_ifs <;> simp [cellOf]

/-- The inner loop entered at column `c` of row `r` runs the remaining `m`
columns and stops. -/
theorem innerLoop_spec (m : Nat) :
    ∀ (fuel r c : Nat) (s : BoardLoop), c + m = 10 → m < fuel →
      s.index = ((10 * r + c : Nat) : Int) →
      ∃ s1, innerLoop fuel (4.5 - r) (4.5 - c) s = some s1 ∧
        s1.index = ((10 * r + 10 : Nat) : Int) ∧
        s1.placed.map cellOf
          = s.placed.map cellOf ++ (List.range' (10 * r + c) m).map gridCell := by
  induction m with
  | zero =>
    intro fuel r c s hc hf hs
    obtain ⟨f, rfl⟩ : ∃ f, fuel = f + 1 := ⟨fuel - 1, by omega⟩
    have hc10 : c = 10 := by omega
    subst hc10
    refine ⟨s, ?_, hs, by simp⟩
    have : ¬ ((4.5 : ℚ) - ((10 : Nat) : ℚ) ≥ -4.5) := by norm_num
    simp only [innerLoop, if_neg this]
  | succ m ih =>
    intro fuel r c s hc hf hs
    obtain ⟨f, rfl⟩ : ∃ f, fuel = f + 1 := ⟨fuel - 1, by omega⟩
    have hc9 : (c : ℚ) ≤ 9 := by
      have : c ≤ 9 := by omega
      exact_mod_cast this
    have hcond : (4.5 : ℚ) - (c : ℚ) ≥ -4.5 := by linarith
    have hj : (4.5 : ℚ) - (c : ℚ) - 1 = 4.5 - ((c + 1 : Nat) : ℚ) := by
      push_cast; ring
    obtain ⟨s1, h1, h2, h3⟩ := ih f r (c + 1) (boardBody (4.5 - r) (4.5 - c) s)
      (by omega) (by omega) (by rw [boardBody_index, hs]; push_cast; ring)
    refine ⟨s1, ?_, h2, ?_⟩
    · simp only [innerLoop, if_pos hcond, hj]
      exact h1
    · rw [h3, boardBody_cells, List.range'_succ, List.map_cons, List.append_assoc]
      have hg : gridCell (10 * r + c) = (s.index, (4.5 - (4.5 - (r : ℚ)), 4.5 - (4.5 - (c : ℚ)))) := by
        have hd : (10 * r + c) / 10 = r := by omega
        have hm : (10 * r + c) % 10 = c := by omega
        simp only [gridCell, hd, hm, hs]
        norm_num
      rw [hg]
      rfl

/-- The outer loop entered at row `r` runs the remaining `m` rows and stops. -/
theorem outerLoop_spec (n : Nat) (hn : 10 < n) (m : Nat) :
    ∀ (fuel r : Nat) (s : BoardLoop), r + m = 10 → m < fuel →
      s.index = ((10 * r : Nat) : Int) →
      ∃ s1, outerLoop n fuel (4.5 - r) s = some s1 ∧
        s1.index = 100 ∧
        s1.placed.map cellOf
          = s.placed.map cellOf ++ (List.range' (10 * r) (10 * m)).map gridCell := by
  induction m with
  | zero =>
    intro fuel r s hr hf hs
    obtain ⟨f, rfl⟩ : ∃ f, fuel = f + 1 := ⟨fuel - 1, by omega⟩
    have hr10 : r = 10 := by omega
    subst hr10
    refine ⟨s, ?_, by simpa using hs, by simp⟩
    have : ¬ ((4.5 : ℚ) - ((10 : Nat) : ℚ) ≥ -4.5) := by norm_num
    simp only [outerLoop, if_neg this]
  | succ m ih =>
    intro fuel r s hr hf hs
    obtain ⟨f, rfl⟩ : ∃ f, fuel = f + 1 := ⟨fuel - 1, by omega⟩
    have hr9 : (r : ℚ) ≤ 9 := by
      have : r ≤ 9 := by omega
      exact_mod_cast this
    have hcond : (4.5 : ℚ) - (r : ℚ) ≥ -4.5 := by linarith
    have hi : (4.5 : ℚ) - (r : ℚ) - 1 = 4.5 - ((r + 1 : Nat) : ℚ) := by
      push_cast; ring
    obtain ⟨s1, h1, h2, h3⟩ := innerLoop_spec 10 n r 0 s (by omega) hn (by simpa using hs)
    obtain ⟨s2, k1, k2, k3⟩ := ih f (r + 1) s1 (by omega) (by omega)
      (by rw [h2]; congr 1)
    refine ⟨s2, ?_, k2, ?_⟩
    · have h1' : innerLoop n (4.5 - (r : ℚ)) 4.5 s = some s1 := by
        simpa using h1
      simp only [outerLoop, if_pos hcond, h1', hi]
      exact k1
    · rw [k3, h3, List.append_assoc, ← List.map_append]
      have : List.range' (10 * r + 0) 10 ++ List.range' (10 * (r + 1)) (10 * m)
          = List.range' (10 * r) (10 * (m + 1)) := by
        have := List.range'_append (10 * r) 10 (10 * m) 1
        simp only [Nat.mul_one] at this
        rw [show 10 * (r + 1) = 10 * r + 10 by ring, Nat.add_zero, this,
          show 10 * m + 10 = 10 * (m + 1) by ring]
      rw [this]

/-- With a bound of at least 11 the board loop ends by its own conditions, after
placing the 100 cells in row-major order. -/
theorem drawBoard_spec (fuel : Nat) (hf : 11 ≤ fuel) :
    ∃ s, drawBoard fuel = some s ∧ s.index = 100 ∧
      s.placed.map cellOf = (List.range' 0 100).map gridCell := by
  obtain ⟨s, h1, h2, h3⟩ := outerLoop_spec fuel (by omega) 10 fuel 0
    { index := 0, oindex := 0, placed := [] } (by omega) (by omega) (by simp)
  refine ⟨s, ?_, h2, ?_⟩
  · simpa [drawBoard] using h1
  · simpa using h3

theorem lookup_gridCell (m : Nat) :
    ∀ a n : Nat, a ≤ n → n < a + m →
      ((List.range' a m).map gridCell).lookup (n : Int) = some (gridCell n).2 := by
  induction m with
  | zero => intro a n h1 h2; omega
  | succ m ih =>
    intro a n h1 h2
    rw [List.range'_succ, List.map_cons]
    by_cases h : n = a
    · subst h
      simp [gridCell]
    · have hne : ((n : Int) == (a : Int)) = false := by
        simp only [beq_eq_false_iff_ne, ne_eq]
        exact_mod_cast h
      have hcons : List.lookup (n : Int) (gridCell a :: (List.range' (a + 1) m).map gridCell)
          = List.lookup (n : Int) ((List.range' (a + 1) m).map gridCell) := by
        show (match ((n : Int) == (gridCell a).1) with
          | true => some (gridCell a).2
          | false => List.lookup (n : Int) ((List.range' (a + 1) m).map gridCell)) = _
        have : (gridCell a).1 = (a : Int) := rfl
        rw [this, hne]
      rw [hcons]
      exact ih (a + 1) n (by omega) (by omega)

theorem coordinateOf_nat (n : Nat) (h : n < 100) :
    coordinateOf (n : Int) = some (((n / 10 : Nat) : ℚ), ((n % 10 : Nat) : ℚ)) := by
  obtain ⟨s, h1, _, h3⟩ := drawBoard_spec 11 (le_refl _)
  simp only [coordinateOf, h1, h3]
  exact lookup_gridCell 100 0 n (Nat.zero_le _) (by omega)

/-- C10: the map `coordinateOf` that the board loop of `draw` realises and
`indexOf(row, col) = row*10 + col` are mutual inverses: `indexOf(coordinateOf(k))
== k` for every `k` in 0..99, and `coordinateOf(indexOf(r, c)) == (r, c)` for
every `r`, `c` in 0..9. -/
theorem coordinateOf_indexOf_inverse :
    (∀ k : Int, 0 ≤ k → k ≤ 99 →
      ∃ r c : ℚ, coordinateOf k = some (r, c) ∧ indexOf r c = (k : ℚ)) ∧
    (∀ r c : Nat, r ≤ 9 → c ≤ 9 → ∀ k : Int, (k : ℚ) = indexOf r c →
      coordinateOf k = some ((r : ℚ), (c : ℚ))) := by
  constructor
  · intro k h0 h99
    obtain ⟨n, rfl⟩ := Int.eq_ofNat_of_zero_le h0
    have hn : n < 100 := by omega
    refine ⟨_, _, coordinateOf_nat n hn, ?_⟩
    have := Nat.div_add_mod n 10
    simp only [indexOf]
    have h2 : (((n / 10 : Nat) : ℚ)) * 10 + ((n % 10 : Nat) : ℚ) = ((10 * (n / 10) + n % 10 : Nat) : ℚ) := by
      push_cast; ring
    rw [h2, this]
    simp
  · intro r c hr hc k hk
    have hk' : k = ((r * 10 + c : Nat) : Int) := by
      have : (k : ℚ) = ((r * 10 + c : Nat) : ℚ) := by
        rw [hk, indexOf]; push_cast; ring
      exact_mod_cast this
    subst hk'
    rw [coordinateOf_nat (r * 10 + c) (by omega)]
    have hd : (r * 10 + c) / 10 = r := by omega
    have hm : (r * 10 + c) % 10 = c := by omega
    rw [hd, hm]

/-- C10 at index 37 and at row 3, column 7. -/
theorem coordinateOf_indexOf_inverse_witness :
    (∃ r c : ℚ, coordinateOf 37 = some (r, c) ∧ indexOf r c = ((37 : Int) : ℚ)) ∧
    coordinateOf 37 = some (((3 : Nat) : ℚ), ((7 : Nat) : ℚ)) :=
  ⟨coordinateOf_indexOf_inverse.1 37 (by decide) (by decide),
   coordinateOf_indexOf_inverse.2 3 7 (by decide) (by decide) 37
     (by norm_num [indexOf])⟩

/-! ## The invariant of a game played one command per frame -/

/-- A player standing at height 1 is left alone by `draw`. -/
theorem draw_of_upright (g : Game) (h : g.person_posy = 1) : draw g = g := by
  have : ¬ g.person_posy = 0 := by rw [h]; norm_num
  simp [draw, this]

/-- One command followed by one `draw` keeps the player on the grid. -/
theorem onGrid_step (g : Game) (key : Key) (action : Action) (h : OnGrid g) :
    OnGrid (draw (keyboard g key action)) := by
  obtain ⟨r, c, hr0, hr9, hc0, hc9, hx, hz, hy, hb⟩ := h
  have hkeep : ∀ b : Bool, OnGrid (draw { g with jump := b }) := by
    intro b
    rw [draw_of_upright { g with jump := b } hy]
    exact ⟨r, c, hr0, hr9, hc0, hc9, hx, hz, hy, hb⟩
  have hself : OnGrid (draw g) := by
    rw [draw_of_upright g hy]
    exact ⟨r, c, hr0, hr9, hc0, hc9, hx, hz, hy, hb⟩
  by_cases ha : action = Action.press ∨ action = Action.repeat
  · by_cases hk : isArrow key = true
    · rw [keyboard_arrow g key action hk ha]
      split_ifs with hp hpit hobs
      · refine ⟨9, 9, by norm_num, by norm_num, by norm_num, by norm_num, ?_, ?_, ?_, ?_⟩ <;>
          norm_num [draw]
      · exact hkeep false
      · rw [draw_of_upright _ (by simpa [moved] using hy)]
        obtain ⟨px, pz, py, bp, lv, jp⟩ := g
        simp only at hx hz hy hb
        subst hx hz hy hb
        have cast_pos : ∀ n : Int, ((4.5 : ℚ) - n < 4.5) → 1 ≤ n := by
          intro n hn
          have : (0 : ℚ) < n := by linarith
          have : (0 : Int) < n := by exact_mod_cast this
          omega
        have cast_pos2 : ∀ n : Int, ((4.5 : ℚ) - n < 3.5) → 2 ≤ n := by
          intro n hn
          have : (1 : ℚ) < n := by linarith
          have : (1 : Int) < n := by exact_mod_cast this
          omega
        have cast_lt : ∀ n : Int, ((4.5 : ℚ) - n > -4.5) → n ≤ 8 := by
          intro n hn
          have : (n : ℚ) < 9 := by linarith
          have : n < (9 : Int) := by exact_mod_cast this
          omega
        have cast_lt2 : ∀ n : Int, ((4.5 : ℚ) - n > -3.5) → n ≤ 7 := by
          intro n hn
          have : (n : ℚ) < 8 := by linarith
          have : n < (8 : Int) := by exact_mod_cast this
          omega
        cases key <;> cases jp <;> simp [isArrow] at hk <;>
          simp only [passesBoundary, if_true, if_false, Bool.false_eq_true] at hp
        · have := cast_pos c hp
          refine ⟨r, c - 1, hr0, hr9, by omega, by omega, ?_, ?_, ?_, ?_⟩ <;>
            simp [moved, destination, stride, unitOffset, axisX, axisZ] <;> ring
        · have := cast_pos2 c hp
          refine ⟨r, c - 2, hr0, hr9, by omega, by omega, ?_, ?_, ?_, ?_⟩ <;>
            simp [moved, destination, stride, unitOffset, axisX, axisZ] <;> ring
        · have := cast_lt c hp
          refine ⟨r, c + 1, hr0, hr9, by omega, by omega, ?_, ?_, ?_, ?_⟩ <;>
            simp [moved, destination, stride, unitOffset, axisX, axisZ] <;> ring
        · have := cast_lt2 c hp
          refine ⟨r, c + 2, hr0, hr9, by omega, by omega, ?_, ?_, ?_, ?_⟩ <;>
            simp [moved, destination, stride, unitOffset, axisX, axisZ] <;> ring
        · have := cast_pos r hp
          refine ⟨r - 1, c, by omega, by omega, hc0, hc9, ?_, ?_, ?_, ?_⟩ <;>
            simp [moved, destination, stride, unitOffset, axisX, axisZ] <;> ring
        · have := cast_pos2 r hp
          refine ⟨r - 2, c, by omega, by omega, hc0, hc9, ?_, ?_, ?_, ?_⟩ <;>
            simp [moved, destination, stride, unitOffset, axisX, axisZ] <;> ring
        · have := cast_lt r hp
          refine ⟨r + 1, c, by omega, by omega, hc0, hc9, ?_, ?_, ?_, ?_⟩ <;>
            simp [moved, destination, stride, unitOffset, axisX, axisZ] <;> ring
        · have := cast_lt2 r hp
          refine ⟨r + 2, c, by omega, by omega, hc0, hc9, ?_, ?_, ?_, ?_⟩ <;>
            simp [moved, destination, stride, unitOffset, axisX, axisZ] <;> ring
      · exact hkeep false
    · cases key <;> simp [isArrow] at hk
      · have hg : keyboard g Key.space action = { g with jump := true } := by
          rcases ha with rfl | rfl <;> simp [keyboard]
        rw [hg]
        exact hkeep true
      · have hg : keyboard g Key.other action = g := by
          rcases ha with rfl | rfl <;> simp [keyboard]
        rw [hg]
        exact hself
  · have hg : keyboard g key action = g := by
      cases action <;> simp at ha
      simp [keyboard]
    rw [hg]
    exact hself

/-- Any number of commands, each followed by one `draw`, keeps the player on the
grid. -/
theorem onGrid_play (events : List KeyEvent) :
    ∀ g : Game, OnGrid g → OnGrid (play g events) := by
  induction events with
  | nil => intro g h; exact h
  | cons e es ih =>
    intro g h
    exact ih (draw (keyboard g e.1 e.2)) (onGrid_step g e.1 e.2 h)

/-- The coordinate of a row or column `0..9` is one of the ten grid values. -/
theorem gridValues_mem (n : Int) (h0 : 0 ≤ n) (h9 : n ≤ 9) :
    (4.5 : ℚ) - n ∈ gridValues := by
  interval_cases n <;> norm_num [gridValues]

/-- C11: in every state reached from the initial globals by repeating one keyboard
command and then one `draw`, `person_posx` and `person_posz` are among
`-4.5, -3.5, ..., 4.5`, `person_posy == 1`, `0 <= block_pos <= 99`, and
`block_pos == (4.5 - person_posx)*10 + (4.5 - person_posz)`. -/
theorem play_on_grid (events : List KeyEvent) :
    (play initial events).person_posx ∈ gridValues ∧
    (play initial events).person_posz ∈ gridValues ∧
    (play initial events).person_posy = 1 ∧
    0 ≤ (play initial events).block_pos ∧ (play initial events).block_pos ≤ 99 ∧
    ((play initial events).block_pos : ℚ)
      = (4.5 - (play initial events).person_posx) * 10
        + (4.5 - (play initial events).person_posz) := by
  have h0 : OnGrid initial :=
    ⟨9, 9, by norm_num, by norm_num, by norm_num, by norm_num,
      by norm_num [initial], by norm_num [initial], rfl, rfl⟩
  obtain ⟨r, c, hr0, hr9, hc0, hc9, hx, hz, hy, hb⟩ := onGrid_play events initial h0
  refine ⟨?_, ?_, hy, by omega, by omega, ?_⟩
  · rw [hx]; exact gridValues_mem r hr0 hr9
  · rw [hz]; exact gridValues_mem c hc0 hc9
  · rw [hx, hz, hb]; push_cast; ring

/-! ## A destination that is pit and obstacle at once -/

/-- C12: for an arrow command that passes its boundary test and whose destination
`d` satisfies both `d % 8 == 5` and `d % 6 == 1` (13, 37, 61 and 85 on the board),
`keyboard` applies the pit rule only: `lives` decreases by 1, `block_pos` becomes
99 and `person_posy` 0, and the obstacle revert is not applied, the position stays
the moved one and the result is not the one of the obstacle branch. -/
theorem keyboard_pit_rule_only :
    (∀ (g : Game) (key : Key) (action : Action),
      isArrow key = true → (action = Action.press ∨ action = Action.repeat) →
      passesBoundary g key →
      (destination g key).tmod 8 = 5 → (destination g key).tmod 6 = 1 →
      (keyboard g key action).lives = g.lives - 1 ∧
      (keyboard g key action).block_pos = 99 ∧
      (keyboard g key action).person_posy = 0 ∧
      (keyboard g key action).person_posx = g.person_posx + stride g * axisX key ∧
      (keyboard g key action).person_posz = g.person_posz + stride g * axisZ key ∧
      ((keyboard g key action).person_posx ≠ g.person_posx ∨
        (keyboard g key action).person_posz ≠ g.person_posz) ∧
      (g.block_pos ≠ 99 → (keyboard g key action).block_pos ≠ g.block_pos) ∧
      keyboard g key action ≠ { g with jump := false }) ∧
    (∀ d : Int, 0 ≤ d → d ≤ 99 →
      ((d.tmod 8 = 5 ∧ d.tmod 6 = 1) ↔ (d = 13 ∨ d = 37 ∨ d = 61 ∨ d = 85))) := by
  constructor
  · intro g key action hk ha hb hp ho
    have hp' : isPit (destination g key) := hp
    rw [keyboard_arrow g key action hk ha, if_pos hb, if_pos hp']
    refine ⟨rfl, rfl, rfl, rfl, rfl, ?_, ?_, ?_⟩
    · obtain ⟨px, pz, py, bp, lv, jp⟩ := g
      cases key <;> cases jp <;> simp [isArrow] at hk <;>
        simp [moved, stride, axisX, axisZ]
    · intro h
      exact fun h2 => h h2.symm
    · intro h
      have hl := congrArg Game.lives h
      simp at hl
  · intro d h0 h99
    rw [tmod_eq_pos_iff d 8 5 (by decide) (by decide),
      tmod_eq_pos_iff d 6 1 (by decide) (by decide)]
    omega

/-- C12 on cell 86 with `RIGHT`: the destination 85 is pit and obstacle at once;
the life is taken, `block_pos` becomes 99 and the player stays moved to
`person_posz` -0.5. -/
theorem keyboard_pit_rule_only_witness :
    (keyboard beforeBoth Key.right Action.press).lives = beforeBoth.lives - 1 ∧
    (keyboard beforeBoth Key.right Action.press).block_pos = 99 ∧
    (keyboard beforeBoth Key.right Action.press).person_posy = 0 ∧
    (keyboard beforeBoth Key.right Action.press).person_posx
      = beforeBoth.person_posx + stride beforeBoth * axisX Key.right ∧
    (keyboard beforeBoth Key.right Action.press).person_posz
      = beforeBoth.person_posz + stride beforeBoth * axisZ Key.right ∧
    ((keyboard beforeBoth Key.right Action.press).person_posx ≠ beforeBoth.person_posx ∨
      (keyboard beforeBoth Key.right Action.press).person_posz ≠ beforeBoth.person_posz) ∧
    (beforeBoth.block_pos ≠ 99 →
      (keyboard beforeBoth Key.right Action.press).block_pos ≠ beforeBoth.block_pos) ∧
    keyboard beforeBoth Key.right Action.press ≠ { beforeBoth with jump := false } :=
  keyboard_pit_rule_only.1 beforeBoth Key.right Action.press rfl (Or.inl rfl)
    (by norm_num [passesBoundary, beforeBoth]) (by decide) (by decide)

/-! ## The cell a jump passes over -/

/-- C13: with `jump` armed, an arrow command that passes the jump boundary test
gives a result fixed by the kind of the cell two steps away: a pit there takes a
life, an obstacle there undoes the move, anything else lets the move of 2 cells
stand. The cell one step away is not tested: when it is a pit or an obstacle and
the cell two steps away is neither, the player moves 2 cells and `lives` is
unchanged. On cell 98 with `person_posz` -3.5 and `jump` armed, `RIGHT` passes over
the obstacle 97 and `block_pos` becomes 96. -/
theorem keyboard_jump_tests_landing_only :
    (∀ (g : Game) (key : Key) (action : Action),
      g.jump = true → isArrow key = true →
      (action = Action.press ∨ action = Action.repeat) → passesBoundary g key →
      keyboard g key action =
        if (g.block_pos + 2 * unitOffset key).tmod 8 = 5 then
          { person_posx := g.person_posx + 2 * axisX key,
            person_posz := g.person_posz + 2 * axisZ key,
            person_posy := 0, block_pos := 99, lives := g.lives - 1, jump := false }
        else if (g.block_pos + 2 * unitOffset key).tmod 6 = 1 then
          { g with jump := false }
        else
          { person_posx := g.person_posx + 2 * axisX key,
            person_posz := g.person_posz + 2 * axisZ key,
            person_posy := g.person_posy,
            block_pos := g.block_pos + 2 * unitOffset key,
            lives := g.lives, jump := false }) ∧
    (∀ (g : Game) (key : Key) (action : Action),
      g.jump = true → isArrow key = true →
      (action = Action.press ∨ action = Action.repeat) → passesBoundary g key →
      ((g.block_pos + unitOffset key).tmod 8 = 5 ∨
        (g.block_pos + unitOffset key).tmod 6 = 1) →
      (g.block_pos + 2 * unitOffset key).tmod 8 ≠ 5 →
      (g.block_pos + 2 * unitOffset key).tmod 6 ≠ 1 →
      (keyboard g key action).person_posx = g.person_posx + 2 * axisX key ∧
      (keyboard g key action).person_posz = g.person_posz + 2 * axisZ key ∧
      (keyboard g key action).person_posy = g.person_posy ∧
      (keyboard g key action).block_pos = g.block_pos + 2 * unitOffset key ∧
      (keyboard g key action).lives = g.lives ∧
      (keyboard g key action).jump = false) ∧
    (armedBeforeObstacle.block_pos = 98 ∧ armedBeforeObstacle.person_posz = -3.5 ∧
      armedBeforeObstacle.jump = true ∧ passesBoundary armedBeforeObstacle Key.right ∧
      (armedBeforeObstacle.block_pos + unitOffset Key.right = 97 ∧ (97 : Int).tmod 6 = 1) ∧
      (keyboard armedBeforeObstacle Key.right Action.press).block_pos = 96 ∧
      (keyboard armedBeforeObstacle Key.right Action.press).person_posz = -1.5 ∧
      (keyboard armedBeforeObstacle Key.right Action.press).lives
        = armedBeforeObstacle.lives) := by
  have hform : ∀ (g : Game) (key : Key) (action : Action),
      g.jump = true → isArrow key = true →
      (action = Action.press ∨ action = Action.repeat) → passesBoundary g key →
      keyboard g key action =
        if (g.block_pos + 2 * unitOffset key).tmod 8 = 5 then
          { person_posx := g.person_posx + 2 * axisX key,
            person_posz := g.person_posz + 2 * axisZ key,
            person_posy := 0, block_pos := 99, lives := g.lives - 1, jump := false }
        else if (g.block_pos + 2 * unitOffset key).tmod 6 = 1 then
          { g with jump := false }
        else
          { person_posx := g.person_posx + 2 * axisX key,
            person_posz := g.person_posz + 2 * axisZ key,
            person_posy := g.person_posy,
            block_pos := g.block_pos + 2 * unitOffset key,
            lives := g.lives, jump := false } := by
    intro g key action hj hk ha hb
    rw [keyboard_arrow g key action hk ha, if_pos hb]
    have hs : stride g = 2 := by simp [stride, hj]
    simp only [isPit, isObstacle, moved, destination, hs]
    split_ifs <;> simp
  refine ⟨hform, ?_, ?_⟩
  · intro g key action hj hk ha hb _ hp ho
    rw [hform g key action hj hk ha hb, if_neg hp, if_neg ho]
    exact ⟨rfl, rfl, rfl, rfl, rfl, rfl⟩
  · refine ⟨rfl, ?_, rfl, ?_, ⟨by decide, by decide⟩, ?_, ?_, ?_⟩ <;>
      norm_num +decide [armedBeforeObstacle, beforeObstacle, passesBoundary, keyboard]

/-- C13 on cell 98 with `jump` armed and `RIGHT`: the cell one step away, 97, is an
obstacle and the cell two steps away, 96, is neither pit nor obstacle; the player
moves 2 cells and keeps the lives. -/
theorem keyboard_jump_tests_landing_only_witness :
    (keyboard armedBeforeObstacle Key.right Action.press).person_posx
      = armedBeforeObstacle.person_posx + 2 * axisX Key.right ∧
    (keyboard armedBeforeObstacle Key.right Action.press).person_posz
      = armedBeforeObstacle.person_posz + 2 * axisZ Key.right ∧
    (keyboard armedBeforeObstacle Key.right Action.press).person_posy
      = armedBeforeObstacle.person_posy ∧
    (keyboard armedBeforeObstacle Key.right Action.press).block_pos
      = armedBeforeObstacle.block_pos + 2 * unitOffset Key.right ∧
    (keyboard armedBeforeObstacle Key.right Action.press).lives
      = armedBeforeObstacle.lives ∧
    (keyboard armedBeforeObstacle Key.right Action.press).jump = false :=
  keyboard_jump_tests_landing_only.2.1 armedBeforeObstacle Key.right Action.press rfl rfl
    (Or.inl rfl) (by norm_num [passesBoundary, armedBeforeObstacle, beforeObstacle])
    (Or.inr (by decide)) (by decide) (by decide)

/-! ## The subscripts read by the board loop -/

/-- The inner loop entered at column `c` runs the body for the remaining `m`
columns and stops. -/
theorem innerLoop_unroll (i : ℚ) (m : Nat) :
    ∀ (fuel c : Nat) (s : BoardLoop), c + m = 10 → m < fuel →
      innerLoop fuel i (4.5 - (c : ℚ)) s
        = some ((List.range' c m).foldl
            (fun t (k : Nat) => boardBody i (4.5 - (k : ℚ)) t) s) := by
  induction m with
  | zero =>
    intro fuel c s hc hf
    obtain ⟨f, rfl⟩ : ∃ f, fuel = f + 1 := ⟨fuel - 1, by omega⟩
    have hc10 : c = 10 := by omega
    subst hc10
    have : ¬ ((4.5 : ℚ) - ((10 : Nat) : ℚ) ≥ -4.5) := by norm_num
    simp only [innerLoop, if_neg this, List.range'_zero, List.foldl_nil]
  | succ m ih =>
    intro fuel c s hc hf
    obtain ⟨f, rfl⟩ : ∃ f, fuel = f + 1 := ⟨fuel - 1, by omega⟩
    have hc9 : (c : ℚ) ≤ 9 := by
      have : c ≤ 9 := by omega
      exact_mod_cast this
    have hcond : (4.5 : ℚ) - (c : ℚ) ≥ -4.5 := by linarith
    have hj : (4.5 : ℚ) - (c : ℚ) - 1 = 4.5 - ((c + 1 : Nat) : ℚ) := by
      push_cast; ring
    simp only [innerLoop, if_pos hcond, hj, List.range'_succ, List.foldl_cons]
    exact ih f (c + 1) (boardBody i (4.5 - (c : ℚ)) s) (by omega) (by omega)

/-- The outer loop entered at row `r` runs the ten columns of each of the
remaining `m` rows and stops. -/
theorem outerLoop_unroll (n : Nat) (hn : 10 < n) (m : Nat) :
    ∀ (fuel r : Nat) (s : BoardLoop), r + m = 10 → m < fuel →
      outerLoop n fuel (4.5 - (r : ℚ)) s
        = some ((List.range' r m).foldl
            (fun t (k : Nat) => boardRow (4.5 - (k : ℚ)) t) s) := by
  induction m with
  | zero =>
    intro fuel r s hr hf
    obtain ⟨f, rfl⟩ : ∃ f, fuel = f + 1 := ⟨fuel - 1, by omega⟩
    have hr10 : r = 10 := by omega
    subst hr10
    have : ¬ ((4.5 : ℚ) - ((10 : Nat) : ℚ) ≥ -4.5) := by norm_num
    simp only [outerLoop, if_neg this, List.range'_zero, List.foldl_nil]
  | succ m ih =>
    intro fuel r s hr hf
    obtain ⟨f, rfl⟩ : ∃ f, fuel = f + 1 := ⟨fuel - 1, by omega⟩
    have hr9 : (r : ℚ) ≤ 9 := by
      have : r ≤ 9 := by omega
      exact_mod_cast this
    have hcond : (4.5 : ℚ) - (r : ℚ) ≥ -4.5 := by linarith
    have hi : (4.5 : ℚ) - (r : ℚ) - 1 = 4.5 - ((r + 1 : Nat) : ℚ) := by
      push_cast; ring
    have hrow : innerLoop n (4.5 - (r : ℚ)) 4.5 s = some (boardRow (4.5 - (r : ℚ)) s) := by
      have := innerLoop_unroll (4.5 - (r : ℚ)) 10 n 0 s (by omega) hn
      simpa [boardRow] using this
    simp only [outerLoop, if_pos hcond, hrow, hi, List.range'_succ, List.foldl_cons]
    exact ih f (r + 1) (boardRow (4.5 - (r : ℚ)) s) (by omega) (by omega)

/-- With a bound of at least 11 the board loop ends by its own conditions and has
run its body once for each of the ten columns of each of the ten rows. -/
theorem drawBoard_unroll (fuel : Nat) (hf : 11 ≤ fuel) :
    drawBoard fuel = some boardRows := by
  have := outerLoop_unroll fuel (by omega) 10 fuel 0
    { index := 0, oindex := 0, placed := [] } (by omega) (by omega)
  simpa [drawBoard, boardRows] using this

set_option maxRecDepth 100000 in
/-- The record of the unrolled board loop: 100 executions of the body for `index`
0 to 99, the subscripts of `board` within 0..99 and those of `obstacle` within
0..29, and an obstacle drawn at the 13 indices `k` with `k % 8 != 5` and
`k % 6 == 1`. -/
theorem boardRows_reads :
    boardRows.placed.length = 100 ∧
    boardRows.placed.map (fun p => p.index)
      = (List.range 100).map (fun k : Nat => (k : Int)) ∧
    (∀ b ∈ boardRows.placed.filterMap (fun p => p.board), 0 ≤ b ∧ b ≤ 99) ∧
    (∀ o ∈ boardRows.placed.filterMap (fun p => p.obstacle), 0 ≤ o ∧ o ≤ 29) ∧
    (boardRows.placed.filter (fun p => p.obstacle.isSome)).map (fun p => p.index)
      = ((List.range 100).filter
          (fun k : Nat => decide ((k : Int).tmod 8 ≠ 5 ∧ (k : Int).tmod 6 = 1))).map
          (fun k : Nat => (k : Int)) ∧
    (boardRows.placed.filter (fun p => p.obstacle.isSome)).length = 13 := by
  refine ⟨?_, ?_, ?_, ?_, ?_, ?_⟩ <;> decide

/-- C14: one execution of the board loop of `draw` runs its body exactly 100
times, for `index` 0 to 99; `board[index]` is read only with `0 <= index <= 99`
and `obstacle[oindex]` only with `0 <= oindex <= 29`; an obstacle is drawn for
exactly the 13 indices `k` in 0..99 with `k % 8 != 5` and `k % 6 == 1`. -/
theorem drawBoard_reads (fuel : Nat) (hf : 11 ≤ fuel) :
    ∃ s, drawBoard fuel = some s ∧
      s.placed.length = 100 ∧
      s.placed.map (fun p => p.index) = (List.range 100).map (fun k : Nat => (k : Int)) ∧
      (∀ b ∈ s.placed.filterMap (fun p => p.board), 0 ≤ b ∧ b ≤ 99) ∧
      (∀ o ∈ s.placed.filterMap (fun p => p.obstacle), 0 ≤ o ∧ o ≤ 29) ∧
      (s.placed.filter (fun p => p.obstacle.isSome)).map (fun p => p.index)
        = ((List.range 100).filter
            (fun k : Nat => decide ((k : Int).tmod 8 ≠ 5 ∧ (k : Int).tmod 6 = 1))).map
            (fun k : Nat => (k : Int)) ∧
      (s.placed.filter (fun p => p.obstacle.isSome)).length = 13 :=
  ⟨boardRows, drawBoard_unroll fuel hf, boardRows_reads⟩

/-- C14 with the bound 11. -/
theorem drawBoard_reads_witness :
    ∃ s, drawBoard 11 = some s ∧
      s.placed.length = 100 ∧
      s.placed.map (fun p => p.index) = (List.range 100).map (fun k : Nat => (k : Int)) ∧
      (∀ b ∈ s.placed.filterMap (fun p => p.board), 0 ≤ b ∧ b ≤ 99) ∧
      (∀ o ∈ s.placed.filterMap (fun p => p.obstacle), 0 ≤ o ∧ o ≤ 29) ∧
      (s.placed.filter (fun p => p.obstacle.isSome)).map (fun p => p.index)
        = ((List.range 100).filter
            (fun k : Nat => decide ((k : Int).tmod 8 ≠ 5 ∧ (k : Int).tmod 6 = 1))).map
            (fun k : Nat => (k : Int)) ∧
      (s.placed.filter (fun p => p.obstacle.isSome)).length = 13 :=
  drawBoard_reads 11 (le_refl 11)

end Game2
